import Mathlib

/-!
Shallow embedding of the BlackRoad crypto tracker core
(`src/crypto_tracker.py`, class `CryptoTracker`).

The sqlite-backed store is modelled as three in-memory lists (rows in
insertion order); Python floats are modelled as rationals with explicit
rounding (`roundTo`), and `datetime.now()` timestamps are passed in
explicitly as strings.  Each method of `CryptoTracker` becomes a pure
function from a `Store` (plus arguments) to a new `Store` together with
the returned dataclass value.
-/

namespace CryptoTracker

/-- Row of the `holdings` table / the `Holding` dataclass (the `id`
column is represented by list position and omitted). -/
structure Holding where
  symbol : String
  name : String
  total_qty : ℚ
  avg_cost : ℚ
  current_price : ℚ
  created_at : String
deriving DecidableEq

/-- Row of the `transactions` table / the `Transaction` dataclass. -/
structure Transaction where
  symbol : String
  tx_type : String
  quantity : ℚ
  price_usd : ℚ
  fee_usd : ℚ
  exchange : String
  tx_date : String
deriving DecidableEq

/-- Row of the `prices` table / the `PriceRecord` dataclass. -/
structure PriceRecord where
  symbol : String
  price_usd : ℚ
  source : String
  recorded_at : String
deriving DecidableEq

/-- The three record sets of the sqlite database, rows in insertion
order. -/
structure Store where
  holdings : List Holding
  transactions : List Transaction
  prices : List PriceRecord
deriving DecidableEq

/-- A freshly initialised database. -/
def emptyStore : Store := ⟨[], [], []⟩

/-- Python's `round(x, d)`: round to `d` decimal places (modelled over
`ℚ` with Mathlib's `round` to the nearest integer). -/
def roundTo (d : ℕ) (x : ℚ) : ℚ := ((round (x * 10 ^ d) : ℤ) : ℚ) / 10 ^ d

/-- Python's `str.upper()`, applied to every symbol argument. -/
def upper (s : String) : String := ⟨s.data.map Char.toUpper⟩

/-- Method `add_holding`: `INSERT OR IGNORE` of a fresh `Holding` row
(uppercased symbol, zero aggregates, the current timestamp), returning
the freshly constructed dataclass regardless of whether the insert was
ignored. -/
def add_holding (s : Store) (symbol name created_at : String) :
    Store × Holding :=
  let h : Holding := ⟨upper symbol, name, 0, 0, 0, created_at⟩
  if s.holdings.any fun g => g.symbol = h.symbol then (s, h)
  else ({ s with holdings := s.holdings ++ [h] }, h)

/-- One step of the aggregate recomputation loop in
`record_transaction`: a `"buy"` row adds quantity and cost, any other
row subtracts quantity. -/
def txStep (acc : ℚ × ℚ) (t : Transaction) : ℚ × ℚ :=
  if t.tx_type = "buy" then (acc.1 + t.quantity, acc.2 + t.quantity * t.price_usd)
  else (acc.1 - t.quantity, acc.2)

/-- The full `(total_qty, total_cost)` fold of `record_transaction`
over the selected transaction rows. -/
def foldTx (rows : List Transaction) : ℚ × ℚ := rows.foldl txStep (0, 0)

/-- Method `record_transaction`: append the new transaction row, then
recompute the holding aggregate from the full history for the symbol
and write `max 0 total_qty` and `round(avg_cost, 8)` back to the
`holdings` row. -/
def record_transaction (s : Store) (symbol tx_type : String)
    (quantity price fee : ℚ) (exchange tx_date : String) :
    Store × Transaction :=
  let sym := upper symbol
  let tx : Transaction := ⟨sym, tx_type, quantity, price, fee, exchange, tx_date⟩
  let txs := s.transactions ++ [tx]
  let rows := txs.filter fun t => t.symbol = sym
  let acc := foldTx rows
  let avg_cost := if 0 < acc.1 then acc.2 / acc.1 else 0
  let holdings := s.holdings.map fun h =>
    if h.symbol = sym then
      { h with total_qty := max 0 acc.1, avg_cost := roundTo 8 avg_cost }
    else h
  ({ s with transactions := txs, holdings := holdings }, tx)

/-- Method `update_price`: append a `PriceRecord` row and set
`current_price` on the matching holding row. -/
def update_price (s : Store) (symbol : String) (price : ℚ)
    (source recorded_at : String) : Store × PriceRecord :=
  let sym := upper symbol
  let r : PriceRecord := ⟨sym, price, source, recorded_at⟩
  ({ s with
      prices := s.prices ++ [r],
      holdings := s.holdings.map fun h =>
        if h.symbol = sym then { h with current_price := price } else h }, r)

/-- An annotated holding as returned by `get_portfolio` (the dict built
from the row plus the four computed fields). -/
structure PortfolioEntry where
  symbol : String
  name : String
  total_qty : ℚ
  avg_cost : ℚ
  current_price : ℚ
  created_at : String
  market_value : ℚ
  cost_basis : ℚ
  unrealized_pnl : ℚ
  pnl_pct : ℚ
deriving DecidableEq

/-- The annotation step of `get_portfolio` on one holding row. -/
def annotate (h : Holding) : PortfolioEntry :=
  let market_val := h.total_qty * h.current_price
  let cost_basis := h.total_qty * h.avg_cost
  let pnl := market_val - cost_basis
  let pnl_pct := if 0 < cost_basis then pnl / cost_basis * 100 else 0
  ⟨h.symbol, h.name, h.total_qty, h.avg_cost, h.current_price, h.created_at,
    roundTo 2 market_val, roundTo 2 cost_basis, roundTo 2 pnl, roundTo 2 pnl_pct⟩

/-- The `ORDER BY (total_qty * current_price) DESC` comparison of the
`get_portfolio` query. -/
def mvGe (a b : Holding) : Prop :=
  b.total_qty * b.current_price ≤ a.total_qty * a.current_price

instance : DecidableRel mvGe := fun a b =>
  decidable_of_iff (b.total_qty * b.current_price ≤ a.total_qty * a.current_price) Iff.rfl

instance : IsTotal Holding mvGe := ⟨fun a b => (le_total _ _).symm.imp id id⟩

instance : IsTrans Holding mvGe := ⟨fun _ _ _ hab hbc => le_trans hbc hab⟩

/-- Method `get_portfolio`: rows with `total_qty > 0`, ordered by
unrounded market value descending, each annotated. -/
def get_portfolio (s : Store) : List PortfolioEntry :=
  (List.insertionSort mvGe (s.holdings.filter fun h => 0 < h.total_qty)).map annotate

/-- The summary record built by `calculate_pnl` (numeric values before
string formatting). -/
structure PnlSummary where
  total_market_value : ℚ
  total_cost_basis : ℚ
  unrealized_pnl : ℚ
  pnl_percentage : ℚ
  winning_positions : ℕ
  losing_positions : ℕ
  total_positions : ℕ
deriving DecidableEq

/-- Method `calculate_pnl`: aggregate the annotated portfolio; the
percentage guard is Python truthiness (`if total_cost`), i.e. zero
exactly when the summed cost basis is zero. -/
def calculate_pnl (s : Store) : PnlSummary :=
  let portfolio := get_portfolio s
  let total_val := (portfolio.map fun h => h.market_value).sum
  let total_cost := (portfolio.map fun h => h.cost_basis).sum
  let total_pnl := total_val - total_cost
  let winners := portfolio.filter fun h => 0 < h.unrealized_pnl
  let losers := portfolio.filter fun h => h.unrealized_pnl < 0
  let pct := if total_cost ≠ 0 then total_pnl / total_cost * 100 else 0
  ⟨total_val, total_cost, total_pnl, pct,
    winners.length, losers.length, portfolio.length⟩

/-- The `ORDER BY tx_date DESC` comparison of the `export_report`
query (sqlite compares the ISO-8601 text column as strings). -/
def dateGe (a b : Transaction) : Prop := b.tx_date ≤ a.tx_date

instance : DecidableRel dateGe := fun a b =>
  decidable_of_iff (b.tx_date ≤ a.tx_date) Iff.rfl

instance : IsTotal Transaction dateGe := ⟨fun a b => (le_total _ _).symm.imp id id⟩

instance : IsTrans Transaction dateGe := ⟨fun _ _ _ hab hbc => le_trans hbc hab⟩

/-- The structured report document assembled by `export_report`. -/
structure Report where
  exported_at : String
  generator : String
  pnl_summary : PnlSummary
  portfolio : List PortfolioEntry
  recent_transactions : List Transaction
deriving DecidableEq

/-- Method `export_report`: the document with the live P&L summary and
portfolio plus the 200 most recent transactions by `tx_date`
descending. -/
def export_report (s : Store) (exported_at : String) : Report :=
  let txs := (List.insertionSort dateGe s.transactions).take 200
  ⟨exported_at, "BlackRoad Crypto Tracker v1.0",
    calculate_pnl s, get_portfolio s, txs⟩

/-- One caller-facing mutating operation, with its timestamp made
explicit. -/
inductive Op where
  | addH (symbol name created_at : String)
  | recordTx (symbol tx_type : String) (quantity price fee : ℚ)
      (exchange tx_date : String)
  | updPrice (symbol : String) (price : ℚ) (source recorded_at : String)
deriving DecidableEq

/-- Apply one operation to the store, discarding the returned value. -/
def applyOp (s : Store) : Op → Store
  | .addH symbol name created_at => (add_holding s symbol name created_at).1
  | .recordTx symbol tx_type q p f ex d =>
      (record_transaction s symbol tx_type q p f ex d).1
  | .updPrice symbol p src d => (update_price s symbol p src d).1

/-- Run a sequence of operations against a fresh database. -/
def runOps (ops : List Op) : Store := ops.foldl applyOp emptyStore

/-- One step of the aggregate fold as the specification words it: a buy
adds quantity and cost, a sell subtracts quantity, and a row that is
neither is left untouched (to be compared with the code's `txStep`,
which subtracts every non-buy row). -/
def specStep (acc : ℚ × ℚ) (t : Transaction) : ℚ × ℚ :=
  if t.tx_type = "buy" then (acc.1 + t.quantity, acc.2 + t.quantity * t.price_usd)
  else if t.tx_type = "sell" then (acc.1 - t.quantity, acc.2)
  else acc

/-- The specification-side `(total_qty, total_cost)` fold over a
transaction history. -/
def specFold (rows : List Transaction) : ℚ × ℚ := rows.foldl specStep (0, 0)

/-- On histories containing only `"buy"` and `"sell"` rows the code's
fold agrees with the specification's fold, from any accumulator. -/
theorem foldl_txStep_eq_specStep (rows : List Transaction)
    (hall : ∀ t ∈ rows, t.tx_type = "buy" ∨ t.tx_type = "sell") :
    ∀ acc : ℚ × ℚ, rows.foldl txStep acc = rows.foldl specStep acc := by
  induction rows with
  | nil => intro acc; rfl
  | cons t ts ih =>
    intro acc
    have ht := hall t (List.mem_cons_self _ _)
    have hts : ∀ u ∈ ts, u.tx_type = "buy" ∨ u.tx_type = "sell" :=
      fun u hu => hall u (List.mem_cons_of_mem _ hu)
    rw [List.foldl_cons, List.foldl_cons, ih hts]
    rcases ht with h | h
    · simp [txStep, specStep, h]
    · simp [txStep, specStep, h]

/-- Rounding to a fixed number of decimal places maps zero to zero. -/
theorem roundTo_zero (d : ℕ) : roundTo d 0 = 0 := by
  simp [roundTo]

/-- Rounding to a fixed number of decimal places is monotone. -/
theorem roundTo_mono (d : ℕ) {a b : ℚ} (hab : a ≤ b) :
    roundTo d a ≤ roundTo d b := by
  unfold roundTo
  have hp : (0 : ℚ) < 10 ^ d := by positivity
  have h2 : a * 10 ^ d ≤ b * 10 ^ d :=
    mul_le_mul_of_nonneg_right hab (le_of_lt hp)
  have h3 : round (a * 10 ^ d) ≤ round (b * 10 ^ d) := by
    rw [round_eq, round_eq]
    exact Int.floor_le_floor (by linarith)
  have h4 : ((round (a * 10 ^ d) : ℤ) : ℚ) ≤ ((round (b * 10 ^ d) : ℤ) : ℚ) := by
    exact_mod_cast h3
  exact div_le_div_of_nonneg_right h4 hp.le

/-- All holding rows of a store carry a non-negative quantity. -/
def qtyInv (s : Store) : Prop := ∀ h ∈ s.holdings, 0 ≤ h.total_qty

/-- The fresh database satisfies the quantity invariant. -/
theorem qtyInv_empty : qtyInv emptyStore := by
  intro h hh
  cases hh

/-- Every single operation preserves the quantity invariant. -/
theorem qtyInv_applyOp (s : Store) (op : Op) (hs : qtyInv s) :
    qtyInv (applyOp s op) := by
  cases op with
  | addH symbol name created_at =>
    intro h hh
    simp only [applyOp, add_holding] at hh
    by_cases hb : s.holdings.any (fun g => g.symbol = upper symbol) = true
    · simp only [hb, if_true] at hh
      exact hs h hh
    · simp only [hb, if_false, Bool.false_eq_true] at hh
      rcases List.mem_append.mp hh with hmem | hmem
      · exact hs h hmem
      · rcases List.mem_singleton.mp hmem with rfl
        exact le_refl 0
  | recordTx symbol tx_type q p f ex d =>
    intro h hh
    simp only [applyOp, record_transaction] at hh
    rw [List.mem_map] at hh
    obtain ⟨h0, h0m, rfl⟩ := hh
    by_cases hc : h0.symbol = upper symbol
    · simp only [hc, if_true]
      exact le_max_left 0 _
    · simp only [hc, if_false]
      exact hs h0 h0m
  | updPrice symbol p src d =>
    intro h hh
    simp only [applyOp, update_price] at hh
    rw [List.mem_map] at hh
    obtain ⟨h0, h0m, rfl⟩ := hh
    by_cases hc : h0.symbol = upper symbol
    · simp only [hc, if_true]
      exact hs h0 h0m
    · simp only [hc, if_false]
      exact hs h0 h0m

/-- Folding any operation list starting from an invariant-satisfying
store keeps the quantity invariant. -/
theorem qtyInv_foldl (ops : List Op) :
    ∀ s : Store, qtyInv s → qtyInv (ops.foldl applyOp s) := by
  induction ops with
  | nil => intro s hs; exact hs
  | cons op ops ih => intro s hs; exact ih _ (qtyInv_applyOp s op hs)

/-- A store holding one freshly registered BTC row and nothing else. -/
def oneHoldingStore : Store := (add_holding emptyStore "BTC" "Bitcoin" "t0").1

/-- Abstract JSON values, modelling the document written by
`json.dumps` in `export_report` (numbers kept exact). -/
inductive JVal where
  | str : String → JVal
  | num : ℚ → JVal
  | arr : List JVal → JVal
  | obj : List (String × JVal) → JVal

/-- Read a JSON number back as a natural-number count. -/
def qToNat (q : ℚ) : Option ℕ :=
  if q.den = 1 ∧ 0 ≤ q.num then some q.num.toNat else none

/-- Counts serialize and deserialize losslessly. -/
theorem qToNat_natCast (n : ℕ) : qToNat (n : ℚ) = some n := by
  simp [qToNat]

/-- Serialize one transaction row. -/
def encodeTx (t : Transaction) : JVal :=
  .obj [("symbol", .str t.symbol), ("tx_type", .str t.tx_type),
        ("quantity", .num t.quantity), ("price_usd", .num t.price_usd),
        ("fee_usd", .num t.fee_usd), ("exchange", .str t.exchange),
        ("tx_date", .str t.tx_date)]

/-- Deserialize one transaction row. -/
def decodeTx : JVal → Option Transaction
  | .obj [("symbol", .str symbol), ("tx_type", .str tx_type),
          ("quantity", .num quantity), ("price_usd", .num price_usd),
          ("fee_usd", .num fee_usd), ("exchange", .str exchange),
          ("tx_date", .str tx_date)] =>
      some ⟨symbol, tx_type, quantity, price_usd, fee_usd, exchange, tx_date⟩
  | _ => none

/-- Transaction rows round-trip through serialization. -/
theorem decodeTx_encodeTx (t : Transaction) : decodeTx (encodeTx t) = some t := rfl

/-- Serialize one annotated portfolio entry. -/
def encodeEntry (e : PortfolioEntry) : JVal :=
  .obj [("symbol", .str e.symbol), ("name", .str e.name),
        ("total_qty", .num e.total_qty), ("avg_cost", .num e.avg_cost),
        ("current_price", .num e.current_price), ("created_at", .str e.created_at),
        ("market_value", .num e.market_value), ("cost_basis", .num e.cost_basis),
        ("unrealized_pnl", .num e.unrealized_pnl), ("pnl_pct", .num e.pnl_pct)]

/-- Deserialize one annotated portfolio entry. -/
def decodeEntry : JVal → Option PortfolioEntry
  | .obj [("symbol", .str symbol), ("name", .str name),
          ("total_qty", .num total_qty), ("avg_cost", .num avg_cost),
          ("current_price", .num current_price), ("created_at", .str created_at),
          ("market_value", .num market_value), ("cost_basis", .num cost_basis),
          ("unrealized_pnl", .num unrealized_pnl), ("pnl_pct", .num pnl_pct)] =>
      some ⟨symbol, name, total_qty, avg_cost, current_price, created_at,
        market_value, cost_basis, unrealized_pnl, pnl_pct⟩
  | _ => none

/-- Portfolio entries round-trip through serialization. -/
theorem decodeEntry_encodeEntry (e : PortfolioEntry) :
    decodeEntry (encodeEntry e) = some e := rfl

/-- Serialize the P&L summary record. -/
def encodePnl (p : PnlSummary) : JVal :=
  .obj [("total_market_value", .num p.total_market_value),
        ("total_cost_basis", .num p.total_cost_basis),
        ("unrealized_pnl", .num p.unrealized_pnl),
        ("pnl_percentage", .num p.pnl_percentage),
        ("winning_positions", .num p.winning_positions),
        ("losing_positions", .num p.losing_positions),
        ("total_positions", .num p.total_positions)]

/-- Deserialize the P&L summary record. -/
def decodePnl : JVal → Option PnlSummary
  | .obj [("total_market_value", .num a), ("total_cost_basis", .num b),
          ("unrealized_pnl", .num c), ("pnl_percentage", .num d),
          ("winning_positions", .num w), ("losing_positions", .num l),
          ("total_positions", .num t)] =>
      match qToNat w, qToNat l, qToNat t with
      | some w, some l, some t => some ⟨a, b, c, d, w, l, t⟩
      | _, _, _ => none
  | _ => none

/-- The P&L summary round-trips through serialization. -/
theorem decodePnl_encodePnl (p : PnlSummary) :
    decodePnl (encodePnl p) = some p := by
  simp only [encodePnl, decodePnl, qToNat_natCast]

/-- Deserialize each element of a JSON array. -/
def decodeList {α : Type} (d : JVal → Option α) : List JVal → Option (List α)
  | [] => some []
  | v :: vs =>
      match d v, decodeList d vs with
      | some a, some rest => some (a :: rest)
      | _, _ => none

/-- Arrays of losslessly-serialized elements round-trip. -/
theorem decodeList_encode {α : Type} (d : JVal → Option α) (e : α → JVal)
    (hd : ∀ x, d (e x) = some x) :
    ∀ l : List α, decodeList d (l.map e) = some l := by
  intro l
  induction l with
  | nil => rfl
  | cons x xs ih =>
    show decodeList d (e x :: xs.map e) = some (x :: xs)
    unfold decodeList
    rw [hd, ih]

/-- Serialize the exported report document. -/
def encodeReport (r : Report) : JVal :=
  .obj [("exported_at", .str r.exported_at), ("generator", .str r.generator),
        ("pnl_summary", encodePnl r.pnl_summary),
        ("portfolio", .arr (r.portfolio.map encodeEntry)),
        ("recent_transactions", .arr (r.recent_transactions.map encodeTx))]

/-- Deserialize the exported report document. -/
def decodeReport : JVal → Option Report
  | .obj [("exported_at", .str exported_at), ("generator", .str generator),
          ("pnl_summary", jp), ("portfolio", .arr jport),
          ("recent_transactions", .arr jtxs)] =>
      match decodePnl jp, decodeList decodeEntry jport, decodeList decodeTx jtxs with
      | some p, some port, some txs => some ⟨exported_at, generator, p, port, txs⟩
      | _, _, _ => none
  | _ => none

/-- The full report document round-trips through serialization. -/
theorem decodeReport_encodeReport (r : Report) :
    decodeReport (encodeReport r) = some r := by
  simp only [encodeReport, decodeReport, decodePnl_encodePnl,
    decodeList_encode decodeEntry encodeEntry decodeEntry_encodeEntry,
    decodeList_encode decodeTx encodeTx decodeTx_encodeTx]

/-- Claim C1: after every call to `record_transaction` the stored
holding row for the symbol equals the fold of the symbol's full
transaction history — each buy contributes `+quantity` and
`+quantity*price`, each sell contributes `-quantity` and no cost; the
persisted `total_qty` is the fold's quantity clamped to 0 and the
persisted `avg_cost` is `total_cost / total_qty` rounded to 8 decimal
places when the quantity is positive and 0 otherwise (stated for
histories whose rows all carry the declared types `"buy"` or
`"sell"`). -/
theorem record_transaction_aggregate_matches_history
    (s : Store) (symbol tx_type : String) (quantity price fee : ℚ)
    (exchange tx_date : String) (s' : Store)
    (hs' : s' = (record_transaction s symbol tx_type quantity price fee exchange tx_date).1)
    (h : Holding) (hmem : h ∈ s'.holdings) (hsym : h.symbol = upper symbol)
    (hall : ∀ t ∈ s'.transactions.filter (fun t => t.symbol = upper symbol),
        t.tx_type = "buy" ∨ t.tx_type = "sell") :
    h.total_qty
        = max 0 (specFold (s'.transactions.filter fun t => t.symbol = upper symbol)).1 ∧
    h.avg_cost
        = if 0 < (specFold (s'.transactions.filter fun t => t.symbol = upper symbol)).1
          then roundTo 8
            ((specFold (s'.transactions.filter fun t => t.symbol = upper symbol)).2
              / (specFold (s'.transactions.filter fun t => t.symbol = upper symbol)).1)
          else 0 := by
  subst hs'
  simp only [record_transaction] at hmem hall ⊢
  rw [List.mem_map] at hmem
  obtain ⟨h0, h0mem, rfl⟩ := hmem
  by_cases hc : h0.symbol = upper symbol
  · simp only [hc, if_true]
    have heq :
        foldTx ((s.transactions
            ++ [(⟨upper symbol, tx_type, quantity, price, fee, exchange, tx_date⟩ :
                  Transaction)]).filter
              fun t => t.symbol = upper symbol)
          = specFold ((s.transactions
            ++ [(⟨upper symbol, tx_type, quantity, price, fee, exchange, tx_date⟩ :
                  Transaction)]).filter
              fun t => t.symbol = upper symbol) :=
      foldl_txStep_eq_specStep _ hall (0, 0)
    refine ⟨?_, ?_⟩
    · simp only [heq]
    · simp only [heq]
      split_ifs with hpos
      · rfl
      · exact roundTo_zero 8
  · rw [if_neg hc] at hsym
    exact absurd hsym hc

/-- Uppercasing leaves the already-uppercase symbol `"BTC"` fixed. -/
theorem upper_BTC : upper "BTC" = "BTC" := by decide

/-- The store `oneHoldingStore`, written out. -/
theorem oneHoldingStore_eq :
    oneHoldingStore = ⟨[⟨"BTC", "Bitcoin", 0, 0, 0, "t0"⟩], [], []⟩ := by
  simp [oneHoldingStore, add_holding, emptyStore, upper_BTC]

/-- Store after registering BTC and buying 2 units at price 50. -/
def buyStore : Store :=
  (record_transaction oneHoldingStore "BTC" "buy" 2 50 0 "manual" "t1").1

/-- The store `buyStore`, written out: the aggregate recomputation
yields quantity 2 and average cost 100 / 2 = 50. -/
theorem buyStore_eq :
    buyStore = ⟨[⟨"BTC", "Bitcoin", 2, 50, 0, "t0"⟩],
      [⟨"BTC", "buy", 2, 50, 0, "manual", "t1"⟩], []⟩ := by
  rw [buyStore, oneHoldingStore_eq]
  simp only [record_transaction, upper_BTC]
  norm_num [foldTx, txStep, roundTo, round_eq]

/-- Concrete instantiation of `record_transaction_aggregate_matches_history`
on a single buy of 2 units at 50. -/
theorem record_transaction_aggregate_matches_history_witness :
    (⟨"BTC", "Bitcoin", 2, 50, 0, "t0"⟩ : Holding).total_qty
        = max 0 (specFold (buyStore.transactions.filter
            fun t => t.symbol = upper "BTC")).1 ∧
    (⟨"BTC", "Bitcoin", 2, 50, 0, "t0"⟩ : Holding).avg_cost
        = if 0 < (specFold (buyStore.transactions.filter
              fun t => t.symbol = upper "BTC")).1
          then roundTo 8
            ((specFold (buyStore.transactions.filter
                fun t => t.symbol = upper "BTC")).2
              / (specFold (buyStore.transactions.filter
                fun t => t.symbol = upper "BTC")).1)
          else 0 :=
  record_transaction_aggregate_matches_history oneHoldingStore "BTC" "buy" 2 50 0
    "manual" "t1" buyStore rfl ⟨"BTC", "Bitcoin", 2, 50, 0, "t0"⟩
    (by rw [buyStore_eq]; simp) (by decide) (by rw [buyStore_eq]; simp [upper_BTC])

/-- Claim C2: across every operation sequence the persisted
`total_qty` of every holding row stays non-negative, and a sell (even
one exceeding the tracked quantity) raises no error and is still
appended to the transaction log. -/
theorem total_qty_never_negative :
    (∀ ops : List Op, ∀ h ∈ (runOps ops).holdings, 0 ≤ h.total_qty) ∧
    (∀ (s : Store) (symbol : String) (q p f : ℚ) (ex d : String),
      ((record_transaction s symbol "sell" q p f ex d).1).transactions
        = s.transactions ++ [(record_transaction s symbol "sell" q p f ex d).2]) := by
  constructor
  · intro ops
    exact qtyInv_foldl ops emptyStore qtyInv_empty
  · intro s symbol q p f ex d
    rfl

/-- Register BTC, then sell 5 units while holding none. -/
def demoOps : List Op :=
  [.addH "BTC" "Bitcoin" "t0", .recordTx "BTC" "sell" 5 10 0 "manual" "t1"]

/-- The store reached by `demoOps`, written out: the oversell is
recorded and the holding row is clamped to quantity 0. -/
theorem runOps_demoOps_eq :
    runOps demoOps = ⟨[⟨"BTC", "Bitcoin", 0, 0, 0, "t0"⟩],
      [⟨"BTC", "sell", 5, 10, 0, "manual", "t1"⟩], []⟩ := by
  show applyOp (applyOp emptyStore (.addH "BTC" "Bitcoin" "t0"))
      (.recordTx "BTC" "sell" 5 10 0 "manual" "t1") = _
  rw [show applyOp emptyStore (.addH "BTC" "Bitcoin" "t0")
      = ({ holdings := [⟨"BTC", "Bitcoin", 0, 0, 0, "t0"⟩], transactions := [],
            prices := [] } : Store) from by
    simp [applyOp, add_holding, emptyStore, upper_BTC]]
  simp only [applyOp, record_transaction, upper_BTC]
  norm_num [foldTx, txStep, roundTo, round_eq,
    show ("sell" : String) ≠ "buy" from by decide]

/-- Concrete instantiation of `total_qty_never_negative`: after an
oversell the stored BTC row carries quantity 0, which is
non-negative. -/
theorem total_qty_never_negative_witness :
    (0 : ℚ) ≤ (⟨"BTC", "Bitcoin", 0, 0, 0, "t0"⟩ : Holding).total_qty :=
  total_qty_never_negative.1 demoOps ⟨"BTC", "Bitcoin", 0, 0, 0, "t0"⟩
    (by rw [runOps_demoOps_eq]; simp)

/-- Claim C3 counterexample: `record_transaction` with a non-positive
quantity (here 0) and with an unrecognized `tx_type` (here `"hold"`)
does not fail and does write — in both cases a transaction row is
appended. -/
theorem record_transaction_no_validation_cex :
    ((record_transaction oneHoldingStore "BTC" "buy" 0 10 0 "manual" "t1").1).transactions.length
        = oneHoldingStore.transactions.length + 1 ∧
    ((record_transaction oneHoldingStore "BTC" "hold" 1 10 0 "manual" "t1").1).transactions.length
        = oneHoldingStore.transactions.length + 1 := by
  decide

/-- Claim C3 amended: `record_transaction` performs no input
validation — for every quantity (zero and negative included) and every
`tx_type` string it raises no error, appends exactly the one new
transaction row, and returns that row. -/
theorem record_transaction_always_writes (s : Store) (symbol tx_type : String)
    (quantity price fee : ℚ) (exchange tx_date : String) :
    ((record_transaction s symbol tx_type quantity price fee exchange tx_date).1).transactions
        = s.transactions
          ++ [(record_transaction s symbol tx_type quantity price fee exchange tx_date).2] ∧
    (record_transaction s symbol tx_type quantity price fee exchange tx_date).2
        = ⟨upper symbol, tx_type, quantity, price, fee, exchange, tx_date⟩ :=
  ⟨rfl, rfl⟩

/-- Claim C4: `get_portfolio` returns exactly the holdings with
positive quantity (zero-quantity rows are excluded), sorted descending
by market value, each annotated with the four computed metrics rounded
to 2 decimal places. -/
theorem get_portfolio_filtered_sorted_annotated (s : Store) :
    (get_portfolio s).Perm
        ((s.holdings.filter fun h => 0 < h.total_qty).map annotate) ∧
    List.Sorted (fun a b : PortfolioEntry => b.market_value ≤ a.market_value)
        (get_portfolio s) ∧
    ∀ h : Holding,
      (annotate h).market_value = roundTo 2 (h.total_qty * h.current_price) ∧
      (annotate h).cost_basis = roundTo 2 (h.total_qty * h.avg_cost) ∧
      (annotate h).unrealized_pnl
          = roundTo 2 (h.total_qty * h.current_price - h.total_qty * h.avg_cost) ∧
      (annotate h).pnl_pct
          = roundTo 2 (if 0 < h.total_qty * h.avg_cost
              then (h.total_qty * h.current_price - h.total_qty * h.avg_cost)
                  / (h.total_qty * h.avg_cost) * 100
              else 0) := by
  refine ⟨?_, ?_, ?_⟩
  · exact (List.perm_insertionSort mvGe _).map annotate
  · refine List.Pairwise.map annotate ?_
      (List.sorted_insertionSort mvGe (s.holdings.filter fun h => 0 < h.total_qty))
    intro a b hab
    exact roundTo_mono 2 hab
  · intro h
    exact ⟨rfl, rfl, rfl, rfl⟩

/-- Claim C5: `calculate_pnl` is division-safe — on an empty portfolio
it returns all-zero totals with zero positions, and the overall P&L
percentage is 0 whenever the total cost basis is 0. -/
theorem calculate_pnl_safe (s : Store) :
    (get_portfolio s = [] → calculate_pnl s = ⟨0, 0, 0, 0, 0, 0, 0⟩) ∧
    ((calculate_pnl s).total_cost_basis = 0 →
        (calculate_pnl s).pnl_percentage = 0) := by
  constructor
  · intro hempty
    unfold calculate_pnl
    rw [hempty]
    norm_num
  · intro hzero
    simp only [calculate_pnl] at hzero ⊢
    simp [hzero]

/-- Concrete instantiation of `calculate_pnl_safe` on the empty
database. -/
theorem calculate_pnl_safe_witness :
    calculate_pnl emptyStore = ⟨0, 0, 0, 0, 0, 0, 0⟩ :=
  (calculate_pnl_safe emptyStore).1 rfl

/-- Claim C6: the exported report carries exactly the live
`calculate_pnl` and `get_portfolio` results, plus at most the 200 most
recent transactions sorted by transaction date descending, and the
serialized document deserializes to the same contents. -/
theorem export_report_matches_live (s : Store) (exported_at : String) :
    (export_report s exported_at).pnl_summary = calculate_pnl s ∧
    (export_report s exported_at).portfolio = get_portfolio s ∧
    (export_report s exported_at).recent_transactions
        = (List.insertionSort dateGe s.transactions).take 200 ∧
    List.Sorted dateGe (export_report s exported_at).recent_transactions ∧
    (export_report s exported_at).recent_transactions.length
        = min 200 s.transactions.length ∧
    decodeReport (encodeReport (export_report s exported_at))
        = some (export_report s exported_at) := by
  refine ⟨rfl, rfl, rfl, ?_, ?_, decodeReport_encodeReport _⟩
  · exact List.Pairwise.sublist (List.take_sublist _ _)
      (List.sorted_insertionSort dateGe s.transactions)
  · show ((List.insertionSort dateGe s.transactions).take 200).length = _
    rw [List.length_take, (List.perm_insertionSort dateGe s.transactions).length_eq]

/-- Claim C7: registration is idempotent on the store — a second
`add_holding` with the same symbol (any name, any timestamp) leaves
the persisted state exactly as after the first call. -/
theorem add_holding_idempotent (s : Store)
    (symbol name name2 created_at created_at2 : String) :
    (add_holding ((add_holding s symbol name created_at).1) symbol name2
        created_at2).1
      = (add_holding s symbol name created_at).1 := by
  by_cases hb : (s.holdings.any fun g => g.symbol = upper symbol) = true
  · simp [add_holding, hb]
  · have hb' : ((s.holdings
        ++ [(⟨upper symbol, name, 0, 0, 0, created_at⟩ : Holding)]).any
          fun g => g.symbol = upper symbol) = true := by
      simp [List.any_append]
    simp [add_holding, hb, hb']

/-- Claim C8: `update_price` appends exactly one price record, sets
`current_price` on the matching holding row, and changes nothing
else — transactions, prior price records, every other holding, and all
non-price fields of the matching holding are untouched. -/
theorem update_price_appends_and_frames (s : Store) (symbol : String)
    (price : ℚ) (source recorded_at : String) :
    ((update_price s symbol price source recorded_at).1).prices
        = s.prices ++ [(update_price s symbol price source recorded_at).2] ∧
    (update_price s symbol price source recorded_at).2
        = ⟨upper symbol, price, source, recorded_at⟩ ∧
    ((update_price s symbol price source recorded_at).1).transactions
        = s.transactions ∧
    List.Forall₂ (fun h h' : Holding =>
        h'.symbol = h.symbol ∧ h'.name = h.name ∧ h'.total_qty = h.total_qty ∧
        h'.avg_cost = h.avg_cost ∧ h'.created_at = h.created_at ∧
        h'.current_price
            = if h.symbol = upper symbol then price else h.current_price)
      s.holdings ((update_price s symbol price source recorded_at).1).holdings := by
  refine ⟨rfl, rfl, rfl, ?_⟩
  rw [show ((update_price s symbol price source recorded_at).1).holdings
      = s.holdings.map (fun h =>
          if h.symbol = upper symbol then { h with current_price := price } else h)
      from rfl]
  rw [List.forall₂_map_right_iff, List.forall₂_same]
  intro h hmem
  by_cases hc : h.symbol = upper symbol
  · simp [hc]
  · simp [hc]

/-- Claim C9: the aggregate recomputation of `record_transaction`
treats every row whose `tx_type` is not exactly `"buy"` (for example
`"SELL"` or arbitrary text) as a sell: its quantity is subtracted and
it contributes nothing to the accumulated cost. -/
theorem non_buy_processed_as_sell (rows : List Transaction) (t : Transaction)
    (h : t.tx_type ≠ "buy") :
    foldTx (rows ++ [t]) = ((foldTx rows).1 - t.quantity, (foldTx rows).2) := by
  unfold foldTx
  rw [List.foldl_append]
  show txStep _ t = _
  unfold txStep
  rw [if_neg h]

/-- An uppercase-SELL transaction row. -/
def demoSellCaps : Transaction := ⟨"BTC", "SELL", 2, 10, 0, "manual", "t1"⟩

/-- Concrete instantiation of `non_buy_processed_as_sell` on a row
with `tx_type = "SELL"`. -/
theorem non_buy_processed_as_sell_witness :
    foldTx ([] ++ [demoSellCaps])
      = ((foldTx []).1 - demoSellCaps.quantity, (foldTx []).2) :=
  non_buy_processed_as_sell [] demoSellCaps (by decide)

/-- Claim C10: `add_holding` always returns a freshly constructed
holding — uppercased symbol, the given name, zero quantity, cost and
price, and the newly generated timestamp — regardless of whether the
symbol already exists, while an already-registered symbol leaves the
persisted store unchanged (so the returned record can disagree with
the stored row). -/
theorem add_holding_returns_fresh (s : Store) (symbol name created_at : String) :
    (add_holding s symbol name created_at).2
        = ⟨upper symbol, name, 0, 0, 0, created_at⟩ ∧
    ((∃ g ∈ s.holdings, g.symbol = upper symbol) →
        (add_holding s symbol name created_at).1 = s) := by
  constructor
  · simp only [add_holding]
    split
    · rfl
    · rfl
  · rintro ⟨g, hg, hgs⟩
    have hb : (s.holdings.any fun x => x.symbol = upper symbol) = true :=
      List.any_eq_true.mpr ⟨g, hg, by simp [hgs]⟩
    simp [add_holding, hb]

/-- Concrete instantiation of `add_holding_returns_fresh`:
re-registering BTC with a different name and timestamp returns the
fresh record but leaves the stored row untouched. -/
theorem add_holding_returns_fresh_witness :
    (add_holding oneHoldingStore "BTC" "Ignored" "t9").2
        = (⟨upper "BTC", "Ignored", 0, 0, 0, "t9"⟩ : Holding) ∧
    (add_holding oneHoldingStore "BTC" "Ignored" "t9").1 = oneHoldingStore :=
  ⟨(add_holding_returns_fresh oneHoldingStore "BTC" "Ignored" "t9").1,
    (add_holding_returns_fresh oneHoldingStore "BTC" "Ignored" "t9").2
      ⟨⟨"BTC", "Bitcoin", 0, 0, 0, "t0"⟩,
        by rw [oneHoldingStore_eq]; simp, by decide⟩⟩

end CryptoTracker
